import Mathlib

/-!
Verification development for the nightly-build pipeline of
`sitescripts/extensions/bin/createNightlies.py`.

The Python source is shallowly embedded: file systems become lists of file
names (with their metadata where needed), the JSON downloads lockfile becomes
an association list from platform names to lists of entries, subprocess and
HTTP effects become explicit parameters recording the outcome of the external
call, and exceptions become `Option`-valued error components.  Machine-level
concerns (real clocks, real hashing, real randomness) are modelled as explicit
inputs.
-/

namespace CreateNightlies

/-- Retention cap, `MAX_BUILDS = 50` in the source. -/
def MAX_BUILDS : Nat := 50

/-! ## Pending-download ledger (`read/write/add_to/remove_from_downloads_lockfile`)

The lockfile holds a JSON object mapping a platform name to a list of entry
objects; each entry object maps string keys to string values.  Both maps are
embedded as association lists.  `json.load` of an absent or unreadable file
raises `IOError`, which the source catches; an absent file is modelled by
`none` in `read_downloads_lockfile`. -/

/-- One ledger entry: a JSON object with string fields, as an association list. -/
abbrev Entry := List (String × String)

/-- The ledger document: platform name to list of entries, as an association list. -/
abbrev Ledger := List (String × List Entry)

/-- Replaces the value stored under key `p`, or appends the binding if the key
is absent.  Models in-place mutation of `current[platform]` (dict entry update
keeps the key in place; a fresh key is inserted). -/
def ledgerSet (L : Ledger) (p : String) (l : List Entry) : Ledger :=
  if (L.lookup p).isSome then L.map (fun q => if q.1 = p then (p, l) else q)
  else L ++ [(p, l)]

/-- Models `del current[platform]`. -/
def ledgerErase (L : Ledger) (p : String) : Ledger :=
  L.filter (fun q => decide (q.1 ≠ p))

/-- Embeds `read_downloads_lockfile` (source lines 429-438): the lockfile
contents when the file is present and readable, `none` when opening raises
`IOError`; in the latter case the source logs and returns the empty dict. -/
def read_downloads_lockfile (file : Option Ledger) : Ledger :=
  match file with
  | none => []
  | some current => current

/-- Embeds `add_to_downloads_lockfile` (source lines 445-451) applied to the
ledger document it read: `current.setdefault(platform, [])` followed by
`current[platform].append(values)`. -/
def add_to_downloads_lockfile (current : Ledger) (platform : String)
    (values : Entry) : Ledger :=
  ledgerSet current platform (((current.lookup platform).getD []) ++ [values])

/-- Embeds the `for i, entry in enumerate(current[platform])` loop of
`remove_from_downloads_lockfile` (source lines 457-461).  The Python list
iterator is positional: after `del current[platform][i]` the element that
shifts into index `i` is never yielded, and the loop continues with index
`i + 1` of the mutated list.  `entry[filter_key]` on an entry lacking the key
raises `KeyError`, which aborts the loop (the handler at line 462-463 ignores
it); that abort returns the list as mutated so far. -/
def removeLoop (filter_key filter_value : String) (i : Nat) (l : List Entry) :
    List Entry :=
  if h : i < l.length then
    match l[i].lookup filter_key with
    | none => l
    | some x =>
      if x = filter_value then
        removeLoop filter_key filter_value (i + 1) (l.eraseIdx i)
      else
        removeLoop filter_key filter_value (i + 1) l
  else l
termination_by l.length - i
decreasing_by
  · simp only [List.length_eraseIdx, h, if_pos]
    omega
  · omega

/-- Embeds `remove_from_downloads_lockfile` (source lines 453-464).  A missing
platform key raises `KeyError`, caught and ignored.  Inside the loop, after a
deletion the source checks `len(current[platform]) == 0` and deletes the
platform key; the list length only shrinks and the check runs after every
iteration, so the key is deleted exactly when the bucket was nonempty and the
loop left it empty. -/
def remove_from_downloads_lockfile (current : Ledger) (platform filter_key
    filter_value : String) : Ledger :=
  match current.lookup platform with
  | none => current
  | some l =>
    if l ≠ [] ∧ removeLoop filter_key filter_value 0 l = [] then
      ledgerErase current platform
    else ledgerSet current platform (removeLoop filter_key filter_value 0 l)

/-! ## Retention manager (`retireBuilds`, source lines 378-397) -/

/-- Modelled from the spec: `compareVersions` lives in
`sitescripts/extensions/utils.py`, which is not under `src/`.  Per the spec
the platform version comparator splits a version on `.` and compares numeric
segments pairwise, shorter prefixes sorting below their extensions
(`"2.9" < "2.10"`, `"1.0.0" < "1.0.1"`). -/
def versionParts (v : String) : List Nat :=
  (v.splitOn ".").map (fun s => (s.toNat?).getD 0)

/-- Lexicographic comparison of numeric segment lists. -/
def cmpParts : List Nat → List Nat → Ordering
  | [], [] => Ordering.eq
  | [], _ :: _ => Ordering.lt
  | _ :: _, [] => Ordering.gt
  | a :: as, b :: bs =>
    match compare a b with
    | Ordering.eq => cmpParts as bs
    | o => o

/-- Modelled from the spec: see `versionParts`. -/
def compareVersions (a b : String) : Ordering :=
  cmpParts (versionParts a) (versionParts b)

/-- The sort key of `versions.sort(compareVersions, reverse=True)`: `a` may
come before `b` in the descending order iff `a` does not compare below `b`. -/
def versionGe (a b : String) : Bool :=
  compareVersions a b != Ordering.lt

/-- File names in the basename directory matching the
`basename + '-' ... packageSuffix` convention (loop at lines 387-389). -/
def matchingFiles (pre suf : String) (files : List String) : List String :=
  files.filter (fun f => f.startsWith pre && f.endsWith suf)

/-- `fileName[len(prefix):len(fileName) - len(suffix)]` (line 389). -/
def extractVersion (pre suf f : String) : String :=
  (f.drop pre.length).dropRight suf.length

/-- The version tokens collected by `retireBuilds` before sorting. -/
def inputVersions (pre suf : String) (files : List String) : List String :=
  (matchingFiles pre suf files).map (extractVersion pre suf)

/-- `versions.sort(compareVersions, reverse=True)`: a stable descending sort;
Python's reverse flag keeps equal elements in their original order, as does a
stable merge sort on the reflexive descending relation. -/
def sortVersions (vs : List String) : List String :=
  vs.mergeSort versionGe

/-- Sibling changelog file name (line 394). -/
def changelogName (pre v : String) : String :=
  pre ++ v ++ ".changelog.xhtml"

/-- The `while len(versions) > MAX_BUILDS` loop (lines 391-396): pop the last
(lowest-sorted) version, delete its artifact file, and delete its sibling
changelog file when present (`os.remove` of an absent name is modelled by
`List.erase`, a no-op on a non-member, matching the guarded removal). -/
def retireLoop (pre suf : String) (versions files : List String) :
    List String × List String :=
  if h : MAX_BUILDS < versions.length then
    let version := versions.getLast (by rintro rfl; simp at h)
    retireLoop pre suf versions.dropLast
      ((files.erase (pre ++ version ++ suf)).erase (changelogName pre version))
  else (versions, files)
termination_by versions.length
decreasing_by
  simp only [List.length_dropLast]
  omega

/-- Embeds `retireBuilds` (lines 378-397) on a directory listing: returns the
surviving sorted version list and the directory contents after the deletions. -/
def retireBuilds (pre suf : String) (files : List String) :
    List String × List String :=
  retireLoop pre suf (sortVersions (inputVersions pre suf files)) files

/-! ## Index page (`updateIndex`, source lines 399-427) -/

/-- Metadata of one file in the basename directory. -/
structure FileInfo where
  name : String
  size : Nat
  mtime : Nat
deriving DecidableEq

/-- One entry of the rendered listing (the `link` dict, lines 417-424). -/
structure IndexLink where
  version : String
  download : String
  mtime : Nat
  size : Nat
  changelog : Option String
deriving DecidableEq

/-- `os.path.exists` / `getmtime` / `getsize` over the modelled directory. -/
def findFile (files : List FileInfo) (n : String) : Option FileInfo :=
  files.find? (fun fi => fi.name == n)

/-- Embeds the `updateIndex` loop (lines 409-425).  The second component is
the log output of the function: the missing-artifact branch (lines 413-415)
only holds the `# Oops` comment and `continue` — no logging call — so the
function emits no log lines. -/
def updateIndex (basename suffix : String) (files : List FileInfo)
    (versions : List String) : List IndexLink × List String :=
  (versions.filterMap (fun version =>
    let packageFile := basename ++ "-" ++ version ++ suffix
    let changelogFile := basename ++ "-" ++ version ++ ".changelog.xhtml"
    match findFile files packageFile with
    | none => none
    | some fi =>
      some { version := version, download := packageFile, mtime := fi.mtime,
             size := fi.size,
             changelog := if (findFile files changelogFile).isSome
                          then some changelogFile else none }),
   [])

/-! ## Change records (`getChanges`, source lines 117-133) -/

/-- One change record as yielded at line 133. -/
structure ChangeRecord where
  date : String
  author : String
  revision : String
  description : String
deriving DecidableEq

/-- Modelled from the spec: the `hg log` subprocess is the external repository
access service (spec section 6).  Its revset is `reverse(ancestors(rev))`
with limit `-l 50`: given the ancestor chain of the current revision listed
oldest first (the documented `ancestors` order), it emits the first 50 of the
reversed chain.  The NUL-separated wire format of the `--template` argument is
modelled at field granularity: one four-field group
`date, author, rev, desc` per emitted revision, in revset order. -/
def hgLogFields (ancestors : List ChangeRecord) : List (List String) :=
  ((ancestors.reverse).take 50).map
    (fun c => [c.date, c.author, c.revision, c.description])

/-- Embeds `getChanges` (lines 117-133): each emitted field group is unpacked
into `date, author, revision, description`; a group of any other arity would
raise at the unpacking (line 132), modelled by `none`. -/
def getChanges (ancestors : List ChangeRecord) : List (Option ChangeRecord) :=
  (hgLogFields ancestors).map (fun fields =>
    match fields with
    | [date, author, revision, description] =>
      some ⟨date, author, revision, description⟩
    | _ => none)

/-- The claim's stated behavior, written from the spec's words for
comparison: the revisions strictly after `previousRevision` up to the current
revision (the end of the ancestor chain), oldest first, capped at 50. -/
def claimedChanges (ancestors : List ChangeRecord)
    (previousRevision : String) : List ChangeRecord :=
  ((ancestors.dropWhile (fun c => c.revision != previousRevision)).drop 1).take 50

/-! ## JWT assertions (`sign_jwt`, source lines 478-503) -/

/-- The payload dict built at lines 488-496. -/
structure JwtPayload where
  aud : String
  iss : String
  sub : String
  jti : String
  iat : Nat
  nbf : Nat
  exp : Nat
deriving DecidableEq

/-- Embeds the payload of `sign_jwt`: `issued = int(time.time())` and
`jti = str(uuid.uuid4())` are the values drawn from the external clock and
randomness source at call time, passed explicitly. -/
def sign_jwt_payload (issuer url : String) (issued : Nat) (jti : String) :
    JwtPayload :=
  { aud := url, iss := issuer, sub := issuer, jti := jti,
    iat := issued, nbf := issued, exp := issued + 60 }

/-! ## Reconcile download (`download_from_mozilla_addons`, lines 568-627,
and the per-entry publication steps of `download`, lines 891-915) -/

/-- The vendor's version-status response: the four flags consulted at line
588, the served file content, and the vendor-supplied checksum string. -/
structure AmoResponse where
  passed_review : Bool
  reviewed : Bool
  processed : Bool
  valid : Bool
  content : String
  checksum : String
deriving DecidableEq

/-- State touched by the reconcile path: the artifact file written at
`self.path`, the downloads lockfile, and the error log. -/
structure DownloadState where
  written : Option String
  ledger : Ledger
  log : List String
deriving DecidableEq

/-- Embeds `download_from_mozilla_addons` (lines 568-627).  `hashHex` is the
external sha256 hex digest; the source compares
`'sha256:' + hexdigest` against the vendor checksum and on mismatch only
calls `logging.error` (lines 606-608) before writing the file, so the write,
the ledger removal and the caller's publication steps all still happen. -/
def download_from_mozilla_addons (hashHex : String → String)
    (platform version : String) (resp : AmoResponse) (st : DownloadState) :
    DownloadState :=
  if resp.passed_review && resp.reviewed && resp.processed && resp.valid then
    let returned_checksum := "sha256:" ++ hashHex resp.content
    let log1 := if returned_checksum ≠ resp.checksum
                then st.log ++ ["Checksum could not be verified"] else st.log
    { written := some resp.content,
      ledger := remove_from_downloads_lockfile st.ledger platform "version" version,
      log := log1 }
  else if !resp.passed_review || !resp.valid then
    { written := st.written,
      ledger := remove_from_downloads_lockfile st.ledger platform "version" version,
      log := st.log ++ ["review failed"] }
  else st

/-- The publication steps run for one reconciled entry (lines 895-915). -/
structure PublishFlags where
  changelogWritten : Bool
  manifestWritten : Bool
  retired : Bool
  indexUpdated : Bool
  latestLinkUpdated : Bool
deriving DecidableEq

/-- Embeds one iteration of the entry loop in `download` (lines 891-915):
after `download_from_mozilla_addons`, if the artifact file exists the
changelog, update manifest, retention, index and latest-link steps all run. -/
def download_entry (hashHex : String → String) (platform version : String)
    (resp : AmoResponse) (st : DownloadState) : DownloadState × PublishFlags :=
  let st1 := download_from_mozilla_addons hashHex platform version resp st
  if st1.written.isSome then (st1, ⟨true, true, true, true, true⟩)
  else (st1, ⟨false, false, false, false, false⟩)

/-! ## Orchestrator (`NightlyBuild.run`, lines 818-880, and `main`,
lines 922-948)

Each external effect of `run` is recorded as an event; the per-platform
durable state carries the revision pointer and the local publication
surface. -/

/-- The per-platform configuration consulted by `run`: the platform type, the
resolved current revision, and the presence of each vendor credential. -/
structure RunConfig where
  type : String
  revision : String
  galleryID : Bool
  amoKey : Bool
  clientID : Bool
  clientSecret : Bool
  refreshToken : Bool
  tenantID : Bool
  privateKey : Bool
  thumbprint : Bool
deriving DecidableEq

/-- Durable per-platform state: the persisted revision pointer and the local
artifact/manifest/index surface. -/
structure PlatState where
  latestRevision : String
  builtArtifact : Option String
  changelogWritten : Bool
  manifestWritten : Bool
  ieManifestWritten : Bool
  retired : Bool
  indexUpdated : Bool
  uploadedToStore : Bool
deriving DecidableEq

/-- Events of one `run` pass, in execution order. -/
inductive RunEvent where
  | copyRepo
  | readMeta
  | buildStep
  | changelogStep
  | manifestStep
  | retireStep
  | ieManifestStep
  | indexStep
  | setPointer (rev : String)
  | uploadAttempt (vendor : String)
  | uploadDone (vendor : String)
deriving DecidableEq

/-- Outcomes of the external calls made during one pass. -/
structure RunWorld where
  copyOk : Bool
  metadataOk : Bool
  buildOk : Bool
  uploadOk : Bool
deriving DecidableEq

/-- `downloadable_repos = {'gecko'}` (line 78). -/
def downloadable_repos : List String := ["gecko"]

/-- The platform types with a metadata reader (lines 833-842); any other
non-IE type raises `Unknown build type` (line 844). -/
def knownTypes : List String := ["android", "chrome", "safari", "gecko", "edge"]

/-- The types for which `writeUpdateManifest` writes a manifest (lines
262-275); for every other type it returns without output. -/
def manifestTypes : List String := ["safari", "android", "gecko"]

/-- Result of one `run`: the escaped exception if any, the final state, and
the event trace. -/
structure RunResult where
  err : Option String
  state : PlatState
  events : List RunEvent
deriving DecidableEq

/-- Embeds lines 822-853: the IE branch only deduces the basename; otherwise
clone, read metadata (unknown type raises), build, and for non-downloadable
platforms write the changelog and the update manifest.  An exception leaves
the state as it was at that point. -/
def runBuildPhase (cfg : RunConfig) (w : RunWorld) (st : PlatState) :
    Option String × PlatState × List RunEvent :=
  if cfg.type == "ie" then (none, st, [])
  else if !w.copyOk then (some "clone failed", st, [RunEvent.copyRepo])
  else if !(knownTypes.contains cfg.type) then
    (some "Unknown build type", st, [RunEvent.copyRepo])
  else if !w.metadataOk then
    (some "metadata failed", st, [RunEvent.copyRepo, RunEvent.readMeta])
  else if !w.buildOk then
    (some "build failed", st,
     [RunEvent.copyRepo, RunEvent.readMeta, RunEvent.buildStep])
  else
    let st1 := { st with builtArtifact := some (cfg.type ++ "-" ++ cfg.revision) }
    if downloadable_repos.contains cfg.type then
      (none, st1, [RunEvent.copyRepo, RunEvent.readMeta, RunEvent.buildStep])
    else
      (none,
       { st1 with
         changelogWritten := true
         manifestWritten := st1.manifestWritten || manifestTypes.contains cfg.type },
       [RunEvent.copyRepo, RunEvent.readMeta, RunEvent.buildStep,
        RunEvent.changelogStep, RunEvent.manifestStep])

/-- Embeds lines 855-863: retire old builds, the IE update manifest for IE,
and the index page for non-downloadable platforms. -/
def runSurfacePhase (cfg : RunConfig) (st : PlatState) :
    PlatState × List RunEvent :=
  let st2 := { st with retired := true }
  let p3 : PlatState × List RunEvent :=
    if cfg.type == "ie" then
      ({ st2 with ieManifestWritten := true },
       [RunEvent.retireStep, RunEvent.ieManifestStep])
    else (st2, [RunEvent.retireStep])
  if downloadable_repos.contains cfg.type then p3
  else ({ p3.1 with indexUpdated := true }, p3.2 ++ [RunEvent.indexStep])

/-- Embeds lines 868-875: the vendor upload runs only when the platform type
and every credential of one vendor branch are configured.  A Mozilla upload
that succeeds removes the local artifact (line 566) and records a ledger
entry; a failed upload leaves the state untouched and raises. -/
def uploadPhase (cfg : RunConfig) (w : RunWorld) (st : PlatState) :
    Option String × PlatState × List RunEvent :=
  if cfg.type == "gecko" && cfg.galleryID && cfg.amoKey then
    if w.uploadOk then
      (none, { st with uploadedToStore := true, builtArtifact := none },
       [RunEvent.uploadAttempt "amo", RunEvent.uploadDone "amo"])
    else (some "upload failed", st, [RunEvent.uploadAttempt "amo"])
  else if cfg.type == "chrome" && cfg.clientID && cfg.clientSecret &&
      cfg.refreshToken then
    if w.uploadOk then
      (none, { st with uploadedToStore := true },
       [RunEvent.uploadAttempt "cws", RunEvent.uploadDone "cws"])
    else (some "upload failed", st, [RunEvent.uploadAttempt "cws"])
  else if cfg.type == "edge" && cfg.clientID && cfg.tenantID &&
      cfg.privateKey && cfg.thumbprint then
    if w.uploadOk then
      (none, { st with uploadedToStore := true },
       [RunEvent.uploadAttempt "winstore", RunEvent.uploadDone "winstore"])
    else (some "upload failed", st, [RunEvent.uploadAttempt "winstore"])
  else (none, st, [])

/-- The condition under which a store upload runs at all: one of the three
vendor branches of lines 868-875 has its platform type and every credential
present. -/
def uploadConfigured (cfg : RunConfig) : Bool :=
  (cfg.type == "gecko" && cfg.galleryID && cfg.amoKey) ||
  (cfg.type == "chrome" && cfg.clientID && cfg.clientSecret &&
    cfg.refreshToken) ||
  (cfg.type == "edge" && cfg.clientID && cfg.tenantID && cfg.privateKey &&
    cfg.thumbprint)

/-- Embeds `NightlyBuild.run` (lines 818-880): build phase, publication
surface, then the pointer assignment `self.config.latestRevision =
self.revision` (line 866), then the store upload.  An exception in any phase
propagates with the state reached so far (the `finally` clause only removes
the temporary work directory, which is not part of the durable state). -/
def run (cfg : RunConfig) (w : RunWorld) (st : PlatState) : RunResult :=
  match runBuildPhase cfg w st with
  | (some e, st1, evs) => ⟨some e, st1, evs⟩
  | (none, st1, evs) =>
    let q := runSurfacePhase cfg st1
    let st3 := { q.1 with latestRevision := cfg.revision }
    let u := uploadPhase cfg w st3
    ⟨u.1, u.2.1, evs ++ q.2 ++ [RunEvent.setPointer cfg.revision] ++ u.2.2⟩

/-- One configured platform of the orchestrator pass: its configuration, the
outcome of its external calls, whether its revision changed, and its state. -/
structure PlatformSetup where
  cfg : RunConfig
  world : RunWorld
  hasChanges : Bool
  st : PlatState
deriving DecidableEq

/-- What the top-level loop records for one platform. -/
inductive MainResult where
  | done (st : PlatState) (events : List RunEvent)
  | failed (platformId : String) (err : String) (st : PlatState)
      (events : List RunEvent)
  | skipped (st : PlatState)
deriving DecidableEq

/-- Embeds the body of the `for repo in ...` loop (lines 935-945): run the
platform when its revision changed; the except-clause turns an escaped
exception into a logged record carrying the platform identifier
(`logging.error('The build for %s failed:', repo)`) and leaves the loop to
continue. -/
def mainStep (p : PlatformSetup) : MainResult :=
  if p.hasChanges then
    match run p.cfg p.world p.st with
    | ⟨some e, st, evs⟩ => MainResult.failed p.cfg.type e st evs
    | ⟨none, st, evs⟩ => MainResult.done st evs
  else MainResult.skipped p.st

/-- Embeds `main` (lines 922-948): every configured platform is processed in
configuration order, each through its own caught `mainStep`. -/
def mainLoop (ps : List PlatformSetup) : List MainResult :=
  ps.map mainStep

/-! ## Helper lemmas about the ledger operations -/

theorem ledger_lookup_append (L : Ledger) (p : String) (l : List Entry)
    (h : L.lookup p = none) : (L ++ [(p, l)]).lookup p = some l := by
  induction L with
  | nil => simp [List.lookup]
  | cons q L ih =>
    obtain ⟨a, b⟩ := q
    by_cases hq : p = a
    · simp [List.lookup_cons, hq] at h
    · have hb : (p == a) = false := beq_eq_false_iff_ne.mpr hq
      simp only [List.cons_append, List.lookup_cons, hb] at h ⊢
      exact ih h

theorem ledger_keys_of_lookup_none (L : Ledger) (p : String)
    (h : L.lookup p = none) : ∀ q ∈ L, q.1 ≠ p := by
  induction L with
  | nil => simp
  | cons q L ih =>
    obtain ⟨a, b⟩ := q
    intro r hr
    by_cases hpa : p = a
    · simp [List.lookup_cons, hpa] at h
    · have hb : (p == a) = false := beq_eq_false_iff_ne.mpr hpa
      simp only [List.lookup_cons, hb] at h
      rcases List.mem_cons.mp hr with rfl | hmem
      · exact fun hc => hpa (hc.symm)
      · exact ih h r hmem

theorem ledgerErase_of_lookup_none (L : Ledger) (p : String)
    (h : L.lookup p = none) : ledgerErase L p = L := by
  unfold ledgerErase
  rw [List.filter_eq_self]
  intro q hq
  simpa using ledger_keys_of_lookup_none L p h q hq

theorem ledgerErase_append (L : Ledger) (p : String) (l : List Entry) :
    ledgerErase (L ++ [(p, l)]) p = ledgerErase L p := by
  unfold ledgerErase
  simp [List.filter_append]

theorem ledgerSet_map_self (L : Ledger) (p : String) (l : List Entry)
    (hnd : (L.map Prod.fst).Nodup) (h : L.lookup p = some l) :
    L.map (fun q => if q.1 = p then (p, l) else q) = L := by
  induction L with
  | nil => simp [List.lookup] at h
  | cons q L ih =>
    obtain ⟨a, b⟩ := q
    rw [List.map_cons] at hnd
    by_cases hq : a = p
    · have hval : b = l := by
        simp [List.lookup_cons, hq.symm] at h
        exact h
      have hkeys : ∀ r ∈ L, r.1 ≠ p := by
        intro r hr hrp
        have : a ∈ L.map Prod.fst := by
          rw [hq, ← hrp]
          exact List.mem_map_of_mem Prod.fst hr
        exact (List.nodup_cons.mp hnd).1 this
      have htail : L.map (fun q => if q.1 = p then (p, l) else q) = L := by
        have hall : ∀ r ∈ L, (if r.1 = p then (p, l) else r) = r := by
          intro r hr
          rw [if_neg (hkeys r hr)]
        calc L.map (fun q => if q.1 = p then (p, l) else q) = L.map id :=
              List.map_congr_left hall
          _ = L := List.map_id L
      rw [List.map_cons, if_pos hq, htail, ← hq, ← hval]
    · have htl : L.lookup p = some l := by
        have hb : (p == a) = false := beq_eq_false_iff_ne.mpr (fun hc => hq hc.symm)
        simpa [List.lookup_cons, hb] using h
      rw [List.map_cons, if_neg hq, ih (List.nodup_cons.mp hnd).2 htl]

theorem ledgerSet_self (L : Ledger) (p : String) (l : List Entry)
    (hnd : (L.map Prod.fst).Nodup) (h : L.lookup p = some l) :
    ledgerSet L p l = L := by
  unfold ledgerSet
  rw [h]
  simp only [Option.isSome_some, if_true]
  exact ledgerSet_map_self L p l hnd h

theorem removeLoop_no_match_aux (k v : String) (l : List Entry)
    (h : ∀ e ∈ l, e.lookup k ≠ some v) :
    ∀ (n i : Nat), l.length - i ≤ n → removeLoop k v i l = l := by
  intro n
  induction n with
  | zero =>
    intro i hi
    rw [removeLoop]
    have hge : ¬ i < l.length := by omega
    rw [dif_neg hge]
  | succ n ih =>
    intro i hi
    rw [removeLoop]
    by_cases hlt : i < l.length
    · rw [dif_pos hlt]
      cases hx : l[i].lookup k with
      | none => simp [hx]
      | some x =>
        have hxv : ¬ x = v := by
          intro hv
          exact h l[i] (List.getElem_mem hlt) (hv ▸ hx)
        simp only [hx, if_neg hxv]
        exact ih (i + 1) (by omega)
    · rw [dif_neg hlt]

theorem removeLoop_no_match (k v : String) (l : List Entry)
    (h : ∀ e ∈ l, e.lookup k ≠ some v) (i : Nat) : removeLoop k v i l = l :=
  removeLoop_no_match_aux k v l h l.length i (by omega)

/-- C10: an absent or unreadable lockfile (`IOError` on `open`) reads as the
empty mapping rather than propagating the error, and adding an entry on top
of that read yields a ledger holding exactly the one new entry under its
platform key. -/
theorem C10_missing_lockfile :
    read_downloads_lockfile none = [] ∧
    ∀ (platform : String) (values : Entry),
      add_to_downloads_lockfile (read_downloads_lockfile none) platform values =
        [(platform, [values])] := by
  refine ⟨rfl, fun platform values => ?_⟩
  simp [add_to_downloads_lockfile, read_downloads_lockfile, ledgerSet,
    List.lookup]

/-- C2: adding an entry for a platform whose bucket is absent and then
removing it by a filter key and value it carries restores the ledger exactly
(the emptied bucket is deleted with its key); and removing a non-existent
entry — the platform key absent, or no entry of the bucket matching the
filter — leaves the ledger unchanged (the `KeyError` paths are caught, so no
error escapes). -/
theorem C2_ledger_round_trip :
    (∀ (L : Ledger) (platform : String) (entry : Entry) (k v : String),
        L.lookup platform = none → entry.lookup k = some v →
        remove_from_downloads_lockfile
          (add_to_downloads_lockfile L platform entry) platform k v = L) ∧
    (∀ (L : Ledger) (platform k v : String),
        (L.map Prod.fst).Nodup →
        (L.lookup platform = none ∨
          ∃ l, L.lookup platform = some l ∧ ∀ e ∈ l, e.lookup k ≠ some v) →
        remove_from_downloads_lockfile L platform k v = L) := by
  constructor
  · intro L platform entry k v hnone hk
    have hadd : add_to_downloads_lockfile L platform entry =
        L ++ [(platform, [entry])] := by
      unfold add_to_downloads_lockfile ledgerSet
      rw [hnone]
      simp
    rw [hadd]
    unfold remove_from_downloads_lockfile
    rw [ledger_lookup_append L platform [entry] hnone]
    dsimp only
    have hloop : removeLoop k v 0 [entry] = [] := by
      rw [removeLoop]
      have h01 : (0 : Nat) < ([entry] : List Entry).length := by simp
      rw [dif_pos h01]
      simp [hk, removeLoop]
    rw [if_pos ⟨by simp, hloop⟩]
    rw [ledgerErase_append, ledgerErase_of_lookup_none L platform hnone]
  · intro L platform k v hnd hcase
    rcases hcase with hnone | ⟨l, hsome, hnomatch⟩
    · unfold remove_from_downloads_lockfile
      rw [hnone]
    · unfold remove_from_downloads_lockfile
      rw [hsome]
      dsimp only
      simp only [removeLoop_no_match k v l hnomatch 0]
      have hcond : ¬ (l ≠ [] ∧ l = []) := by
        rintro ⟨hne, rfl⟩
        exact hne rfl
      rw [if_neg hcond]
      exact ledgerSet_self L platform l hnd hsome

/-- Witness for C2 at a concrete ledger: a `chrome` bucket is present, the
`gecko` bucket is absent; the add-then-remove round trip restores the ledger,
and removing from the absent `gecko` bucket is a no-op. -/
theorem C2_ledger_round_trip_witness :
    ([("chrome", [[("version", "9")]])] : Ledger).lookup "gecko" = none ∧
    ([("version", "2.0")] : Entry).lookup "version" = some "2.0" ∧
    remove_from_downloads_lockfile
        (add_to_downloads_lockfile [("chrome", [[("version", "9")]])]
          "gecko" [("version", "2.0")]) "gecko" "version" "2.0" =
      [("chrome", [[("version", "9")]])] ∧
    remove_from_downloads_lockfile [("chrome", [[("version", "9")]])]
        "gecko" "version" "2.0" =
      [("chrome", [[("version", "9")]])] :=
  ⟨by decide, by decide,
    C2_ledger_round_trip.1 [("chrome", [[("version", "9")]])] "gecko"
      [("version", "2.0")] "version" "2.0" (by decide) (by decide),
    C2_ledger_round_trip.2 [("chrome", [[("version", "9")]])] "gecko"
      "version" "2.0" (by decide) (Or.inl (by decide))⟩

theorem eraseIdx_append_len {A B : List Entry} :
    (A ++ B).eraseIdx A.length = A ++ B.eraseIdx 0 := by
  induction A with
  | nil => simp
  | cons a A ih =>
    simp only [List.cons_append, List.length_cons, List.eraseIdx_cons_succ, ih]

theorem removeLoop_append_aux (k v : String) :
    ∀ (n : Nat) (B A : List Entry), B.length ≤ n →
      removeLoop k v A.length (A ++ B) = A ++ removeLoop k v 0 B := by
  intro n
  induction n with
  | zero =>
    intro B A hB
    have hBnil : B = [] := List.length_eq_zero.mp (Nat.le_zero.mp hB)
    subst hBnil
    have h1 : removeLoop k v A.length (A ++ []) = A ++ [] := by
      rw [removeLoop, dif_neg (by simp)]
    have h2 : removeLoop k v 0 ([] : List Entry) = [] := by
      rw [removeLoop, dif_neg (by simp)]
    rw [h1, h2]
  | succ n ih =>
    intro B A hB
    cases B with
    | nil =>
      have h1 : removeLoop k v A.length (A ++ []) = A ++ [] := by
        rw [removeLoop, dif_neg (by simp)]
      have h2 : removeLoop k v 0 ([] : List Entry) = [] := by
        rw [removeLoop, dif_neg (by simp)]
      rw [h1, h2]
    | cons b B2 =>
      have key : ∀ (c : Entry) (C : List Entry), C.length ≤ n →
          removeLoop k v (A.length + 1) (A ++ c :: C) =
            A ++ removeLoop k v 1 (c :: C) := by
        intro c C hC
        have hstep := ih C (A ++ [c]) hC
        have hlen : (A ++ [c]).length = A.length + 1 := by simp
        rw [hlen] at hstep
        simp only [List.append_assoc, List.singleton_append] at hstep
        have hone := ih C [c] hC
        rw [show ([c] : List Entry).length = 1 from rfl] at hone
        simp only [List.singleton_append] at hone
        rw [hstep, hone]
      have hlt : A.length < (A ++ b :: B2).length := by simp
      have hget : (A ++ b :: B2)[A.length] = b := by
        rw [List.getElem_append_right (Nat.le_refl A.length)]
        simp
      have hL : removeLoop k v A.length (A ++ b :: B2) =
          match b.lookup k with
          | none => A ++ b :: B2
          | some x =>
            if x = v then
              removeLoop k v (A.length + 1) ((A ++ b :: B2).eraseIdx A.length)
            else removeLoop k v (A.length + 1) (A ++ b :: B2) := by
        rw [removeLoop, dif_pos hlt, hget]
      have hR : removeLoop k v 0 (b :: B2) =
          match b.lookup k with
          | none => b :: B2
          | some x =>
            if x = v then removeLoop k v 1 B2
            else removeLoop k v 1 (b :: B2) := by
        rw [removeLoop, dif_pos (by simp : (0 : Nat) < (b :: B2).length)]
        rw [List.getElem_cons_zero, List.eraseIdx_cons_zero]
      rw [hL, hR]
      have hB2 : B2.length ≤ n := by
        simp only [List.length_cons] at hB
        omega
      cases hx : b.lookup k with
      | none => rfl
      | some x =>
        dsimp only
        by_cases hxv : x = v
        · simp only [if_pos hxv]
          have herase : (A ++ b :: B2).eraseIdx A.length = A ++ B2 := by
            rw [eraseIdx_append_len, List.eraseIdx_cons_zero]
          rw [herase]
          cases B2 with
          | nil =>
            have h1 : removeLoop k v (A.length + 1) (A ++ []) = A ++ [] := by
              rw [removeLoop, dif_neg (by simp)]
            have h2 : removeLoop k v 1 ([] : List Entry) = [] := by
              rw [removeLoop, dif_neg (by simp)]
            rw [h1, h2]
          | cons b2 B3 =>
            exact key b2 B3 (by simp only [List.length_cons] at hB2; omega)
        · simp only [if_neg hxv]
          exact key b B2 hB2

theorem removeLoop_append (k v : String) (B A : List Entry) :
    removeLoop k v A.length (A ++ B) = A ++ removeLoop k v 0 B :=
  removeLoop_append_aux k v B.length B A (Nat.le_refl B.length)

theorem removeLoop_walk (k v : String) :
    ∀ (xs R : List Entry),
      (∀ e ∈ xs, ∃ w, e.lookup k = some w ∧ w ≠ v) →
      removeLoop k v 0 (xs ++ R) = xs ++ removeLoop k v 0 R := by
  intro xs
  induction xs with
  | nil =>
    intro R h
    simp
  | cons x xs2 ih =>
    intro R hx
    obtain ⟨w, hw, hwv⟩ := hx x (List.mem_cons_self x xs2)
    have hL : removeLoop k v 0 (x :: (xs2 ++ R)) =
        removeLoop k v 1 (x :: (xs2 ++ R)) := by
      rw [removeLoop, dif_pos (by simp : (0 : Nat) < (x :: (xs2 ++ R)).length)]
      rw [List.getElem_cons_zero, hw]
      dsimp only
      rw [if_neg hwv]
    have happ := removeLoop_append k v (xs2 ++ R) [x]
    rw [show ([x] : List Entry).length = 1 from rfl] at happ
    simp only [List.singleton_append] at happ
    calc removeLoop k v 0 ((x :: xs2) ++ R)
        = removeLoop k v 0 (x :: (xs2 ++ R)) := by simp
      _ = removeLoop k v 1 (x :: (xs2 ++ R)) := hL
      _ = x :: removeLoop k v 0 (xs2 ++ R) := happ
      _ = x :: (xs2 ++ removeLoop k v 0 R) := by
          rw [ih R (fun e he => hx e (List.mem_cons_of_mem x he))]
      _ = (x :: xs2) ++ removeLoop k v 0 R := by simp

theorem removeLoop_adjacent (k v : String) (e1 e2 : Entry) (ys : List Entry)
    (h1 : e1.lookup k = some v) :
    removeLoop k v 0 (e1 :: e2 :: ys) = e2 :: removeLoop k v 0 ys := by
  have happ := removeLoop_append k v ys [e2]
  rw [show ([e2] : List Entry).length = 1 from rfl] at happ
  simp only [List.singleton_append] at happ
  rw [removeLoop, dif_pos (by simp : (0 : Nat) < (e1 :: e2 :: ys).length)]
  rw [List.getElem_cons_zero, h1]
  dsimp only
  rw [if_pos rfl, List.eraseIdx_cons_zero]
  exact happ

theorem ledgerSet_lookup (L : Ledger) (p : String) (l : List Entry)
    (h : (L.lookup p).isSome = true) : (ledgerSet L p l).lookup p = some l := by
  unfold ledgerSet
  rw [if_pos h]
  induction L with
  | nil => simp [List.lookup] at h
  | cons q L ih =>
    obtain ⟨a, b⟩ := q
    by_cases hpa : p = a
    · rw [List.map_cons, if_pos (show a = p from hpa.symm)]
      rw [List.lookup_cons]
      simp
    · have hb : (p == a) = false := beq_eq_false_iff_ne.mpr hpa
      have htl : (L.lookup p).isSome = true := by
        simpa [List.lookup_cons, hb] using h
      rw [List.map_cons, if_neg (show ¬ a = p from fun hc => hpa hc.symm)]
      rw [List.lookup_cons]
      simp only [hb]
      exact ih htl

/-- C9 counterexample: the `gecko` bucket holds three entries `a`, `b`, `c`
in that order, all matching `version = 1.0`.  Entries `b` and `c` are
adjacent and both match the filter, so the claim predicts that of the two
only `b` (the first) is removed and `c` survives; the written-back bucket is
instead exactly `[b]`: deleting `a` shifts `b` into the deleted index where
the iterator skips it, and `c` is then examined and removed. -/
theorem C9_counterexample :
    remove_from_downloads_lockfile
        [("gecko",
          [[("version", "1.0"), ("id", "a")],
           [("version", "1.0"), ("id", "b")],
           [("version", "1.0"), ("id", "c")]])] "gecko" "version" "1.0" =
      [("gecko", [[("version", "1.0"), ("id", "b")]])] ∧
    ([("version", "1.0"), ("id", "c")] : Entry) ∉
      [([("version", "1.0"), ("id", "b")] : Entry)] ∧
    List.lookup "version" ([("version", "1.0"), ("id", "b")] : Entry) =
      some "1.0" ∧
    List.lookup "version" ([("version", "1.0"), ("id", "c")] : Entry) =
      some "1.0" := by
  refine ⟨?_, by decide, by decide, by decide⟩
  simp [remove_from_downloads_lockfile, removeLoop, ledgerSet, ledgerErase,
    List.lookup]

/-- C9 (amended): when the platform bucket is `xs ++ e1 :: e2 :: ys`, every
entry of `xs` carries the filter key with a non-matching value, and the
adjacent entries `e1`, `e2` both match the filter, the removal deletes `e1`
and — because the element deletion happens under the running iterator — skips
`e2`, which shifts into the deleted index: the written-back bucket is
`xs ++ e2 :: (the loop continued on ys)`, so of the two adjacent matching
entries only the first is removed and the second survives. -/
theorem C9_remove_skips_shifted (L : Ledger) (platform k v : String)
    (xs : List Entry) (e1 e2 : Entry) (ys : List Entry)
    (hl : L.lookup platform = some (xs ++ e1 :: e2 :: ys))
    (hxs : ∀ e ∈ xs, ∃ w, e.lookup k = some w ∧ w ≠ v)
    (h1 : e1.lookup k = some v) (h2 : e2.lookup k = some v) :
    (remove_from_downloads_lockfile L platform k v).lookup platform =
      some (xs ++ e2 :: removeLoop k v 0 ys) := by
  have hloop : removeLoop k v 0 (xs ++ e1 :: e2 :: ys) =
      xs ++ e2 :: removeLoop k v 0 ys := by
    rw [removeLoop_walk k v xs (e1 :: e2 :: ys) hxs,
        removeLoop_adjacent k v e1 e2 ys h1]
  unfold remove_from_downloads_lockfile
  rw [hl]
  dsimp only
  rw [hloop]
  rw [if_neg (by simp)]
  exact ledgerSet_lookup L platform _ (by rw [hl]; rfl)

/-- Witness for the amended C9 at a concrete ledger with an empty prefix and
suffix: the bucket `[b, c]` with both entries matching becomes `[c]`. -/
theorem C9_remove_skips_shifted_witness :
    (([("gecko",
        [[("version", "1.0"), ("id", "b")],
         [("version", "1.0"), ("id", "c")]])] : Ledger).lookup "gecko" =
      some (([] : List Entry) ++
        ([("version", "1.0"), ("id", "b")] : Entry) ::
          ([("version", "1.0"), ("id", "c")] : Entry) :: [])) ∧
    (remove_from_downloads_lockfile
        [("gecko",
          [[("version", "1.0"), ("id", "b")],
           [("version", "1.0"), ("id", "c")]])]
        "gecko" "version" "1.0").lookup "gecko" =
      some (([] : List Entry) ++
        ([("version", "1.0"), ("id", "c")] : Entry) ::
          removeLoop "version" "1.0" 0 []) :=
  ⟨by decide,
    C9_remove_skips_shifted
      [("gecko",
        [[("version", "1.0"), ("id", "b")],
         [("version", "1.0"), ("id", "c")]])]
      "gecko" "version" "1.0" []
      [("version", "1.0"), ("id", "b")] [("version", "1.0"), ("id", "c")] []
      (by decide) (by simp) (by decide) (by decide)⟩

/-- C7 counterexample: version `1.2` has no artifact file in the (empty)
directory, so it is skipped — but the function's log output is empty: the
invariant violation is not logged (the missing-artifact branch of the source,
lines 413-415, holds only the `# Oops` comment and `continue`; there is no
logging call anywhere in `updateIndex`). -/
theorem C7_counterexample :
    (updateIndex "ext" ".xpi" [] ["1.2"]).1 = [] ∧
    (updateIndex "ext" ".xpi" [] ["1.2"]).2 = [] :=
  ⟨rfl, rfl⟩

/-- C7 (amended): a version whose artifact file is absent is skipped silently
(not fatal, and with no log output); every version whose artifact file exists
appears in the listing with its version, file name, size, mtime, and a
changelog reference exactly when the sibling changelog file exists. -/
theorem C7_updateIndex (basename suffix : String) (files : List FileInfo)
    (versions : List String) :
    (∀ version ∈ versions,
        findFile files (basename ++ "-" ++ version ++ suffix) = none →
        ∀ link ∈ (updateIndex basename suffix files versions).1,
          link.version ≠ version) ∧
    (∀ version ∈ versions, ∀ fi : FileInfo,
        findFile files (basename ++ "-" ++ version ++ suffix) = some fi →
        ({ version := version,
           download := basename ++ "-" ++ version ++ suffix,
           mtime := fi.mtime, size := fi.size,
           changelog :=
             if (findFile files
                   (basename ++ "-" ++ version ++ ".changelog.xhtml")).isSome
             then some (basename ++ "-" ++ version ++ ".changelog.xhtml")
             else none } : IndexLink) ∈
          (updateIndex basename suffix files versions).1) ∧
    (updateIndex basename suffix files versions).2 = [] := by
  refine ⟨?_, ?_, rfl⟩
  · intro version hv hnone link hlink hveq
    unfold updateIndex at hlink
    obtain ⟨a, ha, hfa⟩ := List.mem_filterMap.mp hlink
    dsimp only at hfa
    cases hfind : findFile files (basename ++ "-" ++ a ++ suffix) with
    | none => rw [hfind] at hfa; exact Option.noConfusion hfa
    | some fi =>
      rw [hfind] at hfa
      have hva : link.version = a := by
        cases hfa
        rfl
      rw [hva] at hveq
      rw [hveq] at hfind
      rw [hfind] at hnone
      exact Option.noConfusion hnone
  · intro version hv fi hfi
    unfold updateIndex
    apply List.mem_filterMap.mpr
    refine ⟨version, hv, ?_⟩
    dsimp only
    rw [hfi]

/-- Witness for the amended C7: one artifact file present for version `1.2`
and no artifact for `1.1`; the `1.2` link is listed and no listed link
carries version `1.1`. -/
theorem C7_updateIndex_witness :
    ({ version := "1.2",
       download := "ext" ++ "-" ++ "1.2" ++ ".xpi",
       mtime := 100, size := 10,
       changelog :=
         if (findFile [⟨"ext-1.2.xpi", 10, 100⟩]
               ("ext" ++ "-" ++ "1.2" ++ ".changelog.xhtml")).isSome
         then some ("ext" ++ "-" ++ "1.2" ++ ".changelog.xhtml")
         else none } : IndexLink) ∈
      (updateIndex "ext" ".xpi" [⟨"ext-1.2.xpi", 10, 100⟩] ["1.2", "1.1"]).1 ∧
    ({ version := "1.2",
       download := "ext" ++ "-" ++ "1.2" ++ ".xpi",
       mtime := 100, size := 10,
       changelog :=
         if (findFile [⟨"ext-1.2.xpi", 10, 100⟩]
               ("ext" ++ "-" ++ "1.2" ++ ".changelog.xhtml")).isSome
         then some ("ext" ++ "-" ++ "1.2" ++ ".changelog.xhtml")
         else none } : IndexLink).version ≠ "1.1" :=
  ⟨(C7_updateIndex "ext" ".xpi" [⟨"ext-1.2.xpi", 10, 100⟩] ["1.2", "1.1"]).2.1
      "1.2" (by decide) ⟨"ext-1.2.xpi", 10, 100⟩ (by decide),
   (C7_updateIndex "ext" ".xpi" [⟨"ext-1.2.xpi", 10, 100⟩] ["1.2", "1.1"]).1
      "1.1" (by decide) (by decide) _
      ((C7_updateIndex "ext" ".xpi" [⟨"ext-1.2.xpi", 10, 100⟩]
          ["1.2", "1.1"]).2.1 "1.2" (by decide) ⟨"ext-1.2.xpi", 10, 100⟩
        (by decide))⟩

/-- C5 counterexample: with the ancestor chain `r1, r2, r3` (oldest first)
and `previousRevision = r2`, the claim predicts the single record `r3`
(the revisions after `r2` up to the current `r3`, oldest first); the
embedded `getChanges` instead yields all three ancestors, newest first: the
`hg log` revset `reverse(ancestors(rev))` with `-l 50` never consults the
previous revision and lists newest first. -/
theorem C5_counterexample :
    getChanges [⟨"d1", "a1", "r1", "m1"⟩, ⟨"d2", "a2", "r2", "m2"⟩,
        ⟨"d3", "a3", "r3", "m3"⟩] =
      [some ⟨"d3", "a3", "r3", "m3"⟩, some ⟨"d2", "a2", "r2", "m2"⟩,
        some ⟨"d1", "a1", "r1", "m1"⟩] ∧
    (claimedChanges [⟨"d1", "a1", "r1", "m1"⟩, ⟨"d2", "a2", "r2", "m2"⟩,
          ⟨"d3", "a3", "r3", "m3"⟩] "r2").map some =
      [some ⟨"d3", "a3", "r3", "m3"⟩] ∧
    getChanges [⟨"d1", "a1", "r1", "m1"⟩, ⟨"d2", "a2", "r2", "m2"⟩,
        ⟨"d3", "a3", "r3", "m3"⟩] ≠
      (claimedChanges [⟨"d1", "a1", "r1", "m1"⟩, ⟨"d2", "a2", "r2", "m2"⟩,
          ⟨"d3", "a3", "r3", "m3"⟩] "r2").map some := by
  refine ⟨by decide, by decide, by decide⟩

/-- C5 (amended): `getChanges` yields the at most 50 newest ancestors of the
current revision (the current revision included), ordered newest first,
independent of `previousRevision`; each record carries date, author,
revision id and description, and the list is capped at 50 entries. -/
theorem C5_getChanges (ancestors : List ChangeRecord) :
    getChanges ancestors = ((ancestors.reverse).take 50).map some ∧
    (getChanges ancestors).length ≤ 50 := by
  have heq : getChanges ancestors = ((ancestors.reverse).take 50).map some := by
    unfold getChanges hgLogFields
    rw [List.map_map]
    exact List.map_congr_left (fun c hc => rfl)
  refine ⟨heq, ?_⟩
  rw [heq]
  simp only [List.length_map, List.length_take]
  omega

/-- C8: every assertion payload built by `sign_jwt` has `iat = nbf` equal to
the issue time, `exp` exactly 60 seconds later, and carries as `jti` the
identifier drawn fresh from the uuid4 source for this request, so two calls
whose uuid4 draws differ (the documented behavior of uuid4) carry distinct
`jti` values. -/
theorem C8_sign_jwt :
    ∀ (issuer url : String) (issued : Nat) (jti : String),
      (sign_jwt_payload issuer url issued jti).iat = issued ∧
      (sign_jwt_payload issuer url issued jti).nbf = issued ∧
      (sign_jwt_payload issuer url issued jti).exp = issued + 60 ∧
      (sign_jwt_payload issuer url issued jti).jti = jti ∧
      ∀ (issuer2 url2 : String) (issued2 : Nat) (jti2 : String),
        jti ≠ jti2 →
        (sign_jwt_payload issuer url issued jti).jti ≠
          (sign_jwt_payload issuer2 url2 issued2 jti2).jti := by
  intro issuer url issued jti
  exact ⟨rfl, rfl, rfl, rfl, fun issuer2 url2 issued2 jti2 h => h⟩

/-- Witness for C8 at concrete times and identifiers. -/
theorem C8_sign_jwt_witness :
    (sign_jwt_payload "iss" "https://host/token" 100 "aa").exp = 160 ∧
    (sign_jwt_payload "iss" "https://host/token" 100 "aa").jti ≠
      (sign_jwt_payload "iss" "https://host/token" 200 "bb").jti :=
  ⟨(C8_sign_jwt "iss" "https://host/token" 100 "aa").2.2.1,
    (C8_sign_jwt "iss" "https://host/token" 100 "aa").2.2.2.2 "iss" "https://host/token" 200
      "bb" (by decide)⟩

/-- C6: when the vendor reports the version approved (all four status flags
true) but the downloaded file's sha256 hash does not match the
vendor-supplied checksum, the mismatch is only logged: the file is still
written, the ledger entry is still removed, the caller's
changelog/manifest/retention/index/latest-link steps still run, and no
exception escapes (the embedded function is total). -/
theorem C6_checksum_mismatch (hashHex : String → String)
    (platform version : String) (resp : AmoResponse) (st : DownloadState)
    (hpr : resp.passed_review = true) (hrv : resp.reviewed = true)
    (hpc : resp.processed = true) (hvl : resp.valid = true)
    (hmis : "sha256:" ++ hashHex resp.content ≠ resp.checksum) :
    (download_entry hashHex platform version resp st).1.log =
        st.log ++ ["Checksum could not be verified"] ∧
    (download_entry hashHex platform version resp st).1.written =
        some resp.content ∧
    (download_entry hashHex platform version resp st).1.ledger =
        remove_from_downloads_lockfile st.ledger platform "version" version ∧
    (download_entry hashHex platform version resp st).2 =
        ⟨true, true, true, true, true⟩ := by
  unfold download_entry download_from_mozilla_addons
  simp [hpr, hrv, hpc, hvl, hmis]

/-- Witness for C6: identity hash, a response whose checksum does not match,
and an empty starting state. -/
theorem C6_checksum_mismatch_witness :
    ("sha256:" ++ (fun s => s) "body" ≠ "sha256:other") ∧
    (download_entry (fun s => s) "gecko" "2.0"
        ⟨true, true, true, true, "body", "sha256:other"⟩ ⟨none, [], []⟩).1.log =
      ([] : List String) ++ ["Checksum could not be verified"] ∧
    (download_entry (fun s => s) "gecko" "2.0"
        ⟨true, true, true, true, "body", "sha256:other"⟩ ⟨none, [], []⟩).2 =
      ⟨true, true, true, true, true⟩ :=
  ⟨by decide,
    (C6_checksum_mismatch (fun s => s) "gecko" "2.0"
      ⟨true, true, true, true, "body", "sha256:other"⟩ ⟨none, [], []⟩
      rfl rfl rfl rfl (by decide)).1,
    (C6_checksum_mismatch (fun s => s) "gecko" "2.0"
      ⟨true, true, true, true, "body", "sha256:other"⟩ ⟨none, [], []⟩
      rfl rfl rfl rfl (by decide)).2.2.2⟩

theorem run_buildFail (cfg : RunConfig) (w : RunWorld) (st : PlatState)
    (hie : cfg.type ≠ "ie") (hknown : knownTypes.contains cfg.type = true)
    (hcopy : w.copyOk = true) (hmeta : w.metadataOk = true)
    (hbuild : w.buildOk = false) :
    run cfg w st = ⟨some "build failed", st,
      [RunEvent.copyRepo, RunEvent.readMeta, RunEvent.buildStep]⟩ := by
  have hphase : runBuildPhase cfg w st = (some "build failed", st,
      [RunEvent.copyRepo, RunEvent.readMeta, RunEvent.buildStep]) := by
    unfold runBuildPhase
    have hbe : (cfg.type == "ie") = false := beq_eq_false_iff_ne.mpr hie
    rw [if_neg (by simp [hbe])]
    rw [hcopy]
    rw [if_neg (by simp)]
    rw [hknown]
    rw [if_neg (by simp)]
    rw [hmeta]
    rw [if_neg (by simp)]
    rw [hbuild]
    rw [if_pos (by simp)]
  unfold run
  rw [hphase]

/-- C3: the top-level loop processes every configured platform even when one
of them fails: each platform's outcome is its own caught `mainStep`, a
platform whose build step raises is recorded as a failure carrying the
platform identifier (the loop logs it) together with its unchanged state —
its revision pointer, artifact, changelog, manifest and index are exactly as
before the pass — and every other platform's outcome is unaffected. -/
theorem C3_isolation (ps : List PlatformSetup) (k : Nat) (p : PlatformSetup)
    (hk : ps[k]? = some p) (hchg : p.hasChanges = true)
    (hie : p.cfg.type ≠ "ie") (hknown : knownTypes.contains p.cfg.type = true)
    (hcopy : p.world.copyOk = true) (hmeta : p.world.metadataOk = true)
    (hbuild : p.world.buildOk = false) :
    (mainLoop ps).length = ps.length ∧
    (∀ j : Nat, (mainLoop ps)[j]? = (ps[j]?).map mainStep) ∧
    (mainLoop ps)[k]? =
      some (MainResult.failed p.cfg.type "build failed" p.st
        [RunEvent.copyRepo, RunEvent.readMeta, RunEvent.buildStep]) := by
  refine ⟨by simp [mainLoop], ?_, ?_⟩
  · intro j
    unfold mainLoop
    rw [List.getElem?_map]
  · unfold mainLoop
    rw [List.getElem?_map, hk]
    have hstep : mainStep p = MainResult.failed p.cfg.type "build failed" p.st
        [RunEvent.copyRepo, RunEvent.readMeta, RunEvent.buildStep] := by
      unfold mainStep
      rw [if_pos (by simp [hchg])]
      rw [run_buildFail p.cfg p.world p.st hie hknown hcopy hmeta hbuild]
    simp [hstep]

/-- Witness for C3: three platforms; the middle one (chrome, build step
failing) is recorded as a logged failure with unchanged state, and the
results list still has one outcome per platform. -/
theorem C3_isolation_witness :
    (mainLoop
      [⟨⟨"gecko", "r2", false, false, false, false, false, false, false,
          false⟩, ⟨true, true, true, true⟩, true,
        ⟨"r1", none, false, false, false, false, false, false⟩⟩,
       ⟨⟨"chrome", "r9", false, false, false, false, false, false, false,
          false⟩, ⟨true, true, false, true⟩, true,
        ⟨"r8", none, false, false, false, false, false, false⟩⟩,
       ⟨⟨"safari", "r5", false, false, false, false, false, false, false,
          false⟩, ⟨true, true, true, true⟩, true,
        ⟨"r4", none, false, false, false, false, false, false⟩⟩]).length = 3 ∧
    (mainLoop
      [⟨⟨"gecko", "r2", false, false, false, false, false, false, false,
          false⟩, ⟨true, true, true, true⟩, true,
        ⟨"r1", none, false, false, false, false, false, false⟩⟩,
       ⟨⟨"chrome", "r9", false, false, false, false, false, false, false,
          false⟩, ⟨true, true, false, true⟩, true,
        ⟨"r8", none, false, false, false, false, false, false⟩⟩,
       ⟨⟨"safari", "r5", false, false, false, false, false, false, false,
          false⟩, ⟨true, true, true, true⟩, true,
        ⟨"r4", none, false, false, false, false, false, false⟩⟩])[1]? =
      some (MainResult.failed "chrome" "build failed"
        ⟨"r8", none, false, false, false, false, false, false⟩
        [RunEvent.copyRepo, RunEvent.readMeta, RunEvent.buildStep]) :=
  ⟨(C3_isolation
      [⟨⟨"gecko", "r2", false, false, false, false, false, false, false,
          false⟩, ⟨true, true, true, true⟩, true,
        ⟨"r1", none, false, false, false, false, false, false⟩⟩,
       ⟨⟨"chrome", "r9", false, false, false, false, false, false, false,
          false⟩, ⟨true, true, false, true⟩, true,
        ⟨"r8", none, false, false, false, false, false, false⟩⟩,
       ⟨⟨"safari", "r5", false, false, false, false, false, false, false,
          false⟩, ⟨true, true, true, true⟩, true,
        ⟨"r4", none, false, false, false, false, false, false⟩⟩] 1
      ⟨⟨"chrome", "r9", false, false, false, false, false, false, false,
          false⟩, ⟨true, true, false, true⟩, true,
        ⟨"r8", none, false, false, false, false, false, false⟩⟩
      rfl rfl (by decide) rfl rfl rfl rfl).1,
   (C3_isolation
      [⟨⟨"gecko", "r2", false, false, false, false, false, false, false,
          false⟩, ⟨true, true, true, true⟩, true,
        ⟨"r1", none, false, false, false, false, false, false⟩⟩,
       ⟨⟨"chrome", "r9", false, false, false, false, false, false, false,
          false⟩, ⟨true, true, false, true⟩, true,
        ⟨"r8", none, false, false, false, false, false, false⟩⟩,
       ⟨⟨"safari", "r5", false, false, false, false, false, false, false,
          false⟩, ⟨true, true, true, true⟩, true,
        ⟨"r4", none, false, false, false, false, false, false⟩⟩] 1
      ⟨⟨"chrome", "r9", false, false, false, false, false, false, false,
          false⟩, ⟨true, true, false, true⟩, true,
        ⟨"r8", none, false, false, false, false, false, false⟩⟩
      rfl rfl (by decide) rfl rfl rfl rfl).2.2⟩

theorem runBuildPhase_no_upload (cfg : RunConfig) (w : RunWorld)
    (st : PlatState) (u : String) :
    RunEvent.uploadAttempt u ∉ (runBuildPhase cfg w st).2.2 := by
  unfold runBuildPhase
  repeat' split
  all_goals simp

theorem runSurfacePhase_no_upload (cfg : RunConfig) (st : PlatState)
    (u : String) :
    RunEvent.uploadAttempt u ∉ (runSurfacePhase cfg st).2 := by
  unfold runSurfacePhase
  repeat' split
  all_goals simp

theorem runBuildPhase_ok (cfg : RunConfig) (w : RunWorld) (st : PlatState)
    (hie : cfg.type ≠ "ie") (hknown : knownTypes.contains cfg.type = true)
    (hcopy : w.copyOk = true) (hmeta : w.metadataOk = true)
    (hbuild : w.buildOk = true) :
    (runBuildPhase cfg w st).1 = none := by
  unfold runBuildPhase
  have hbe : (cfg.type == "ie") = false := beq_eq_false_iff_ne.mpr hie
  rw [if_neg (by simp [hbe])]
  rw [hcopy, if_neg (by simp)]
  rw [hknown, if_neg (by simp)]
  rw [hmeta, if_neg (by simp)]
  rw [hbuild, if_neg (by simp)]
  split
  · rfl
  · rfl

theorem uploadPhase_fail (cfg : RunConfig) (w : RunWorld) (st : PlatState)
    (hconf : uploadConfigured cfg = true) (hupload : w.uploadOk = false) :
    (uploadPhase cfg w st).1 = some "upload failed" ∧
    (uploadPhase cfg w st).2.1 = st := by
  unfold uploadPhase
  unfold uploadConfigured at hconf
  simp only [Bool.or_eq_true] at hconf
  rcases hconf with (h | h) | h
  · rw [if_pos h, if_neg (by simp [hupload])]
    exact ⟨rfl, rfl⟩
  · have htyc : cfg.type = "chrome" := by
      simp only [Bool.and_eq_true, beq_iff_eq] at h
      exact h.1.1.1
    have hg : (cfg.type == "gecko" && cfg.galleryID && cfg.amoKey) = false := by
      simp [htyc]
    rw [if_neg (by simp [hg])]
    rw [if_pos h, if_neg (by simp [hupload])]
    exact ⟨rfl, rfl⟩
  · have htye : cfg.type = "edge" := by
      simp only [Bool.and_eq_true, beq_iff_eq] at h
      exact h.1.1.1.1
    have hg : (cfg.type == "gecko" && cfg.galleryID && cfg.amoKey) = false := by
      simp [htye]
    have hc : (cfg.type == "chrome" && cfg.clientID && cfg.clientSecret &&
        cfg.refreshToken) = false := by
      simp [htye]
    rw [if_neg (by simp [hg])]
    rw [if_neg (by simp [hc])]
    rw [if_pos h, if_neg (by simp [hupload])]
    exact ⟨rfl, rfl⟩

/-- C4: the revision pointer assignment happens strictly before any store
upload is attempted — every `uploadAttempt` in a run trace is preceded by the
`setPointer` event, and no upload is attempted before it — and when the local
build, retention, manifest and index steps succeed but the store upload
raises, the run still fails with the upload error while the final state
carries the advanced pointer and exactly the local publication surface the
successful local phases wrote: nothing is rolled back. -/
theorem C4_pointer_before_upload :
    (∀ (cfg : RunConfig) (w : RunWorld) (st : PlatState) (vendor : String),
        RunEvent.uploadAttempt vendor ∈ (run cfg w st).events →
        ∃ l1 l2, (run cfg w st).events =
            l1 ++ RunEvent.setPointer cfg.revision :: l2 ∧
          (∀ u, RunEvent.uploadAttempt u ∉ l1) ∧
          RunEvent.uploadAttempt vendor ∈ l2) ∧
    (∀ (cfg : RunConfig) (w : RunWorld) (st : PlatState),
        uploadConfigured cfg = true → w.copyOk = true → w.metadataOk = true →
        w.buildOk = true → w.uploadOk = false →
        (run cfg w st).err = some "upload failed" ∧
        (run cfg w st).state.latestRevision = cfg.revision ∧
        (run cfg w st).state =
          { (runSurfacePhase cfg (runBuildPhase cfg w st).2.1).1 with
            latestRevision := cfg.revision }) := by
  constructor
  · intro cfg w st vendor hmem
    rcases hbp : runBuildPhase cfg w st with ⟨e, st1, evs⟩
    cases e with
    | some err =>
      exfalso
      unfold run at hmem
      rw [hbp] at hmem
      dsimp only at hmem
      have := runBuildPhase_no_upload cfg w st vendor
      rw [hbp] at this
      exact this hmem
    | none =>
      unfold run at hmem ⊢
      rw [hbp] at hmem ⊢
      dsimp only at hmem ⊢
      refine ⟨evs ++ (runSurfacePhase cfg st1).2,
        (uploadPhase cfg w
          { (runSurfacePhase cfg st1).1 with
            latestRevision := cfg.revision }).2.2, ?_, ?_, ?_⟩
      · simp
      · intro u hu
        rcases List.mem_append.mp hu with h | h
        · have := runBuildPhase_no_upload cfg w st u
          rw [hbp] at this
          exact this h
        · exact runSurfacePhase_no_upload cfg st1 u h
      · simp only [List.append_assoc, List.mem_append, List.mem_cons,
          List.mem_singleton] at hmem
        rcases hmem with h | h | h | h
        · exfalso
          have := runBuildPhase_no_upload cfg w st vendor
          rw [hbp] at this
          exact this h
        · exact absurd h (runSurfacePhase_no_upload cfg st1 vendor)
        · exact absurd h (by simp)
        · exact h
  · intro cfg w st hconf hcopy hmeta hbuild hupload
    have htype : cfg.type = "gecko" ∨ cfg.type = "chrome" ∨
        cfg.type = "edge" := by
      unfold uploadConfigured at hconf
      simp only [Bool.or_eq_true, Bool.and_eq_true, beq_iff_eq] at hconf
      rcases hconf with (h | h) | h
      · exact Or.inl h.1.1
      · exact Or.inr (Or.inl h.1.1.1)
      · exact Or.inr (Or.inr h.1.1.1.1)
    have hie : cfg.type ≠ "ie" := by
      rcases htype with h | h | h <;> rw [h] <;> decide
    have hknown : knownTypes.contains cfg.type = true := by
      rcases htype with h | h | h <;> rw [h] <;> decide
    have hnone := runBuildPhase_ok cfg w st hie hknown hcopy hmeta hbuild
    rcases hbp : runBuildPhase cfg w st with ⟨e, st1, evs⟩
    have he : e = none := by
      rw [hbp] at hnone
      exact hnone
    subst he
    have hup := uploadPhase_fail cfg w
      ({ (runSurfacePhase cfg st1).1 with latestRevision := cfg.revision })
      hconf hupload
    unfold run
    rw [hbp]
    dsimp only
    refine ⟨hup.1, ?_, ?_⟩
    · rw [hup.2]
    · rw [hup.2]

/-- Witness for C4: a chrome platform with full credentials, a successful
local pass and a failing upload; the pointer is advanced to the new revision
and the local surface is kept; and the run trace places the pointer
assignment before the upload attempt. -/
theorem C4_pointer_before_upload_witness :
    (RunEvent.uploadAttempt "cws" ∈
      (run ⟨"chrome", "r9", false, false, true, true, true, false, false,
          false⟩ ⟨true, true, true, false⟩
        ⟨"r8", none, false, false, false, false, false, false⟩).events →
      ∃ l1 l2,
        (run ⟨"chrome", "r9", false, false, true, true, true, false, false,
            false⟩ ⟨true, true, true, false⟩
          ⟨"r8", none, false, false, false, false, false, false⟩).events =
          l1 ++ RunEvent.setPointer "r9" :: l2 ∧
        (∀ u, RunEvent.uploadAttempt u ∉ l1) ∧
        RunEvent.uploadAttempt "cws" ∈ l2) ∧
    (run ⟨"chrome", "r9", false, false, true, true, true, false, false,
        false⟩ ⟨true, true, true, false⟩
      ⟨"r8", none, false, false, false, false, false, false⟩).err =
      some "upload failed" ∧
    (run ⟨"chrome", "r9", false, false, true, true, true, false, false,
        false⟩ ⟨true, true, true, false⟩
      ⟨"r8", none, false, false, false, false, false, false⟩).state.latestRevision =
      "r9" :=
  ⟨C4_pointer_before_upload.1
      ⟨"chrome", "r9", false, false, true, true, true, false, false, false⟩
      ⟨true, true, true, false⟩
      ⟨"r8", none, false, false, false, false, false, false⟩ "cws",
    (C4_pointer_before_upload.2
      ⟨"chrome", "r9", false, false, true, true, true, false, false, false⟩
      ⟨true, true, true, false⟩
      ⟨"r8", none, false, false, false, false, false, false⟩
      (by decide) rfl rfl rfl rfl).1,
    (C4_pointer_before_upload.2
      ⟨"chrome", "r9", false, false, true, true, true, false, false, false⟩
      ⟨true, true, true, false⟩
      ⟨"r8", none, false, false, false, false, false, false⟩
      (by decide) rfl rfl rfl rfl).2.1⟩

theorem natCompare_swap (a b : Nat) : compare a b = (compare b a).swap := by
  rcases Nat.lt_trichotomy a b with h | h | h
  · rw [Nat.compare_eq_lt.mpr h, Nat.compare_eq_gt.mpr h]
    rfl
  · rw [Nat.compare_eq_eq.mpr h, Nat.compare_eq_eq.mpr h.symm]
    rfl
  · rw [Nat.compare_eq_gt.mpr h, Nat.compare_eq_lt.mpr h]
    rfl

theorem cmpParts_swap : ∀ (a b : List Nat), cmpParts a b = (cmpParts b a).swap := by
  intro a
  induction a with
  | nil =>
    intro b
    cases b with
    | nil => rfl
    | cons y ys => rfl
  | cons x xs ih =>
    intro b
    cases b with
    | nil => rfl
    | cons y ys =>
      simp only [cmpParts]
      rw [natCompare_swap x y]
      cases hc : compare y x with
      | lt => rfl
      | eq =>
        simp only [Ordering.swap]
        exact ih ys
      | gt => rfl

theorem cmpParts_trans : ∀ (a b c : List Nat),
    cmpParts a b ≠ Ordering.lt → cmpParts b c ≠ Ordering.lt →
    cmpParts a c ≠ Ordering.lt := by
  intro a
  induction a with
  | nil =>
    intro b c hab hbc
    cases b with
    | nil => exact hbc
    | cons y ys => exact absurd rfl hab
  | cons x xs ih =>
    intro b c hab hbc
    cases b with
    | nil =>
      cases c with
      | nil => exact fun hc => Ordering.noConfusion hc
      | cons z zs => exact absurd rfl hbc
    | cons y ys =>
      cases c with
      | nil => exact fun hc => Ordering.noConfusion hc
      | cons z zs =>
        simp only [cmpParts] at hab hbc ⊢
        rcases Nat.lt_trichotomy x y with hxy | hxy | hxy
        · rw [Nat.compare_eq_lt.mpr hxy] at hab
          exact absurd rfl hab
        · subst hxy
          rw [Nat.compare_eq_eq.mpr rfl] at hab
          rcases Nat.lt_trichotomy x z with hxz | hxz | hxz
          · rw [Nat.compare_eq_lt.mpr hxz] at hbc
            exact absurd rfl hbc
          · subst hxz
            rw [Nat.compare_eq_eq.mpr rfl] at hbc ⊢
            exact ih ys zs hab hbc
          · rw [Nat.compare_eq_gt.mpr hxz]
            exact fun hc => Ordering.noConfusion hc
        · rcases Nat.lt_trichotomy y z with hyz | hyz | hyz
          · rw [Nat.compare_eq_lt.mpr hyz] at hbc
            exact absurd rfl hbc
          · subst hyz
            rw [Nat.compare_eq_gt.mpr hxy]
            exact fun hc => Ordering.noConfusion hc
          · rw [Nat.compare_eq_gt.mpr (Nat.lt_trans hyz hxy)]
            exact fun hc => Ordering.noConfusion hc

theorem compareVersions_swap (a b : String) :
    compareVersions a b = (compareVersions b a).swap :=
  cmpParts_swap (versionParts a) (versionParts b)

theorem versionGe_total (a b : String) :
    (versionGe a b || versionGe b a) = true := by
  unfold versionGe
  cases h : compareVersions a b with
  | lt =>
    have hba : compareVersions b a = Ordering.gt := by
      rw [compareVersions_swap b a, h]
      rfl
    rw [hba]
    decide
  | eq =>
    rw [(by decide : (Ordering.eq != Ordering.lt) = true), Bool.true_or]
  | gt =>
    rw [(by decide : (Ordering.gt != Ordering.lt) = true), Bool.true_or]

theorem versionGe_iff (a b : String) :
    versionGe a b = true ↔ compareVersions a b ≠ Ordering.lt := by
  unfold versionGe
  cases compareVersions a b
  all_goals decide

theorem versionGe_trans (a b c : String) (h1 : versionGe a b = true)
    (h2 : versionGe b c = true) : versionGe a c = true :=
  (versionGe_iff a c).mpr
    (cmpParts_trans _ _ _ ((versionGe_iff a b).mp h1)
      ((versionGe_iff b c).mp h2))

theorem sortVersions_sorted (vs : List String) :
    List.Pairwise (fun a b => versionGe a b = true) (sortVersions vs) :=
  List.sorted_mergeSort versionGe_trans versionGe_total vs

theorem retireLoop_eq_pos (pre suf : String) (vs fs : List String)
    (h : MAX_BUILDS < vs.length) (hne : vs ≠ []) :
    retireLoop pre suf vs fs = retireLoop pre suf vs.dropLast
      ((fs.erase (pre ++ vs.getLast hne ++ suf)).erase
        (changelogName pre (vs.getLast hne))) := by
  rw [retireLoop, dif_pos h]

theorem retireLoop_eq_neg (pre suf : String) (vs fs : List String)
    (h : ¬ MAX_BUILDS < vs.length) :
    retireLoop pre suf vs fs = (vs, fs) := by
  rw [retireLoop, dif_neg h]

theorem retireLoop_fst (pre suf : String) :
    ∀ (n : Nat) (vs fs : List String), vs.length ≤ n →
      (retireLoop pre suf vs fs).1 = vs.take MAX_BUILDS := by
  intro n
  induction n with
  | zero =>
    intro vs fs h
    rw [retireLoop_eq_neg pre suf vs fs (by omega)]
    exact (List.take_of_length_le (show vs.length ≤ MAX_BUILDS by omega)).symm
  | succ n ih =>
    intro vs fs h
    by_cases hlt : MAX_BUILDS < vs.length
    · have hne : vs ≠ [] := by
        intro hv
        rw [hv] at hlt
        simp at hlt
      rw [retireLoop_eq_pos pre suf vs fs hlt hne]
      rw [ih vs.dropLast _ (by rw [List.length_dropLast]; omega)]
      rw [List.dropLast_eq_take, List.take_take]
      rw [Nat.min_eq_left (by omega)]
    · rw [retireLoop_eq_neg pre suf vs fs hlt]
      exact (List.take_of_length_le (show vs.length ≤ MAX_BUILDS by omega)).symm

theorem retireLoop_snd_subset (pre suf : String) :
    ∀ (n : Nat) (vs fs : List String), vs.length ≤ n →
      ∀ x, x ∈ (retireLoop pre suf vs fs).2 → x ∈ fs := by
  intro n
  induction n with
  | zero =>
    intro vs fs h x hx
    rw [retireLoop_eq_neg pre suf vs fs (by omega)] at hx
    exact hx
  | succ n ih =>
    intro vs fs h x hx
    by_cases hlt : MAX_BUILDS < vs.length
    · have hne : vs ≠ [] := by
        intro hv
        rw [hv] at hlt
        simp at hlt
      rw [retireLoop_eq_pos pre suf vs fs hlt hne] at hx
      have hmem := ih vs.dropLast _ (by rw [List.length_dropLast]; omega) x hx
      exact List.erase_subset _ _ (List.erase_subset _ _ hmem)
    · rw [retireLoop_eq_neg pre suf vs fs hlt] at hx
      exact hx

theorem retireLoop_removed (pre suf : String) :
    ∀ (n : Nat) (vs fs : List String), vs.length ≤ n → fs.Nodup →
      ∀ v ∈ vs.drop MAX_BUILDS,
        (pre ++ v ++ suf) ∉ (retireLoop pre suf vs fs).2 ∧
        changelogName pre v ∉ (retireLoop pre suf vs fs).2 := by
  intro n
  induction n with
  | zero =>
    intro vs fs h hnd v hv
    have hnil : vs = [] := List.length_eq_zero.mp (by omega)
    rw [hnil] at hv
    simp at hv
  | succ n ih =>
    intro vs fs h hnd v hv
    by_cases hlt : MAX_BUILDS < vs.length
    · have hne : vs ≠ [] := by
        intro hv0
        rw [hv0] at hlt
        simp at hlt
      have hlen : MAX_BUILDS ≤ vs.dropLast.length := by
        rw [List.length_dropLast]
        omega
      have hdrop : vs.drop MAX_BUILDS =
          vs.dropLast.drop MAX_BUILDS ++ [vs.getLast hne] := by
        conv_lhs => rw [← List.dropLast_append_getLast hne]
        rw [List.drop_append_of_le_length hlen]
      have hnd1 : (fs.erase (pre ++ vs.getLast hne ++ suf)).Nodup :=
        hnd.erase _
      have hnd2 : ((fs.erase (pre ++ vs.getLast hne ++ suf)).erase
          (changelogName pre (vs.getLast hne))).Nodup := hnd1.erase _
      rw [retireLoop_eq_pos pre suf vs fs hlt hne]
      rw [hdrop] at hv
      rcases List.mem_append.mp hv with hv1 | hv1
      · exact ih vs.dropLast _ (by rw [List.length_dropLast]; omega) hnd2 v hv1
      · have hveq : v = vs.getLast hne := List.mem_singleton.mp hv1
        subst hveq
        constructor
        · intro hmem
          have hin := retireLoop_snd_subset pre suf n vs.dropLast _
            (by rw [List.length_dropLast]; omega) _ hmem
          exact hnd.not_mem_erase (List.erase_subset _ _ hin)
        · intro hmem
          have hin := retireLoop_snd_subset pre suf n vs.dropLast _
            (by rw [List.length_dropLast]; omega) _ hmem
          exact hnd1.not_mem_erase hin
    · rw [List.drop_eq_nil_of_le (by omega)] at hv
      simp at hv

/-- C1: on a directory whose listing has no duplicate names, `retireBuilds`
returns exactly the first `MAX_BUILDS = 50` entries of the version list
sorted descending by the platform comparator; that list is capped at 50 and
sorted, together with the removed versions it is a permutation of the
extracted input versions, no removed version compares strictly above any
survivor, and every removed version's artifact file and sibling changelog
file name are gone from the directory. -/
theorem C1_retireBuilds (pre suf : String) (files : List String)
    (hnd : files.Nodup) :
    (retireBuilds pre suf files).1.length ≤ MAX_BUILDS ∧
    (retireBuilds pre suf files).1 =
      (sortVersions (inputVersions pre suf files)).take MAX_BUILDS ∧
    List.Pairwise (fun a b => versionGe a b = true)
      (retireBuilds pre suf files).1 ∧
    ((retireBuilds pre suf files).1 ++
      (sortVersions (inputVersions pre suf files)).drop MAX_BUILDS).Perm
        (inputVersions pre suf files) ∧
    (∀ v ∈ (sortVersions (inputVersions pre suf files)).drop MAX_BUILDS,
       ∀ w ∈ (retireBuilds pre suf files).1,
         compareVersions v w ≠ Ordering.gt) ∧
    (∀ v ∈ (sortVersions (inputVersions pre suf files)).drop MAX_BUILDS,
       (pre ++ v ++ suf) ∉ (retireBuilds pre suf files).2 ∧
       changelogName pre v ∉ (retireBuilds pre suf files).2) := by
  have hfst : (retireBuilds pre suf files).1 =
      (sortVersions (inputVersions pre suf files)).take MAX_BUILDS := by
    unfold retireBuilds
    exact retireLoop_fst pre suf
      (sortVersions (inputVersions pre suf files)).length _ files (le_refl _)
  have hsorted := sortVersions_sorted (inputVersions pre suf files)
  refine ⟨?_, hfst, ?_, ?_, ?_, ?_⟩
  · rw [hfst, List.length_take]
    exact Nat.min_le_left _ _
  · rw [hfst]
    exact List.Pairwise.sublist (List.take_sublist _ _) hsorted
  · rw [hfst, List.take_append_drop]
    exact List.mergeSort_perm _ _
  · intro v hv w hw
    rw [hfst] at hw
    have hpair := hsorted
    rw [← List.take_append_drop MAX_BUILDS
      (sortVersions (inputVersions pre suf files))] at hpair
    have hrel := (List.pairwise_append.mp hpair).2.2 w hw v hv
    intro hgt
    have hswap := compareVersions_swap v w
    rw [hgt] at hswap
    have hwv : compareVersions w v = Ordering.lt := by
      cases hcv : compareVersions w v with
      | lt => rfl
      | eq =>
        rw [hcv] at hswap
        exact absurd hswap (by decide)
      | gt =>
        rw [hcv] at hswap
        exact absurd hswap (by decide)
    unfold versionGe at hrel
    rw [hwv] at hrel
    exact absurd hrel (by decide)
  · intro v hv
    unfold retireBuilds
    exact retireLoop_removed pre suf
      (sortVersions (inputVersions pre suf files)).length _ files
      (le_refl _) hnd v hv

/-- Witness for C1 at a small concrete directory listing. -/
theorem C1_retireBuilds_witness :
    (["ext-1.2.xpi", "ext-1.10.xpi", "index.html"] : List String).Nodup ∧
    (retireBuilds "ext-" ".xpi"
      ["ext-1.2.xpi", "ext-1.10.xpi", "index.html"]).1.length ≤ MAX_BUILDS ∧
    (retireBuilds "ext-" ".xpi"
        ["ext-1.2.xpi", "ext-1.10.xpi", "index.html"]).1 =
      (sortVersions (inputVersions "ext-" ".xpi"
        ["ext-1.2.xpi", "ext-1.10.xpi", "index.html"])).take MAX_BUILDS :=
  ⟨by decide,
   (C1_retireBuilds "ext-" ".xpi"
     ["ext-1.2.xpi", "ext-1.10.xpi", "index.html"] (by decide)).1,
   (C1_retireBuilds "ext-" ".xpi"
     ["ext-1.2.xpi", "ext-1.10.xpi", "index.html"] (by decide)).2.1⟩

end CreateNightlies
